import Mathlib

/-!
Verification of the monero-javascript connection-manager subsystem and the
wallet model classes (`MoneroWalletKeys`, `MoneroTxConfig`,
`MoneroConnectionManagerListener`).

The connection manager itself (`MoneroConnectionManager`) is not among the
source files; only its listener base class and a test caller are.  Its state
machine is therefore modelled from the specification (data model §3,
component design §4, concurrency rules §5).  The wallet classes are embedded
directly from their TypeScript source.
-/

/-- Embedding of `MoneroError` (common/MoneroError.ts): an error with a
message and an optional numeric code. -/
structure MoneroErr where
  message : String
  code : Option Int
deriving Repr, DecidableEq

/-- Modelled from the spec: the structured outcome of the transport
collaborator's probe operation (§6): `{online: bool, responseTimeMs:
number|none, authenticated: bool|none}`. -/
structure ProbeOutcome where
  online : Bool
  responseTimeMs : Option Nat
  authenticated : Option Bool
deriving Repr, DecidableEq

/-- Modelled from the spec: a `Connection` (§3) — endpoint identity plus its
last-known health snapshot.  `priority` 0 means unset; `isOnline` and
`isAuthenticated` are tri-state (`none` = unknown). -/
structure Connection where
  endpointKey : String
  priority : Nat
  responseTimeMs : Option Nat
  isOnline : Option Bool
  isAuthenticated : Option Bool
deriving Repr, DecidableEq

/-- Modelled from the spec: the `Manager` state (§3) — the registry
(insertion-ordered, unique keys), the current endpoint key, the automatic
mode flag, the pin epoch, the listener handles, the poller configuration,
and the strictness flag governing `setConnection` on unknown endpoints
(§4.6).  `activeTimers` counts live polling loops (§4.5). -/
structure ManagerState where
  connections : List Connection
  current : Option String
  autoSwitchEnabled : Bool
  pinEpoch : Nat
  listeners : List Nat
  pollPeriodMs : Option Nat
  pollRunning : Bool
  activeTimers : Nat
  strict : Bool
deriving Repr, DecidableEq

/-- Modelled from the spec: the configuration-error taxonomy (§7) —
duplicate endpoint on add, unknown endpoint on remove or strict
`setConnection`. -/
inductive ConfigurationError where
  | duplicateEndpoint
  | unknownEndpoint
deriving Repr, DecidableEq

/-- Whether the registry holds a connection with the given endpoint key. -/
def hasKey (l : List Connection) (k : String) : Bool :=
  l.any (fun c => c.endpointKey == k)

/-- First registry entry with the given endpoint key. -/
def findConn (l : List Connection) (k : String) : Option Connection :=
  l.find? (fun c => c.endpointKey == k)

/-- The connection referenced by `current`, if any. -/
def curConn (s : ManagerState) : Option Connection :=
  match s.current with
  | none => none
  | some k => findConn s.connections k

/-- Reachability snapshot of the current connection: `none` when there is no
current connection, otherwise its tri-state `isOnline` field. -/
def reach (s : ManagerState) : Option (Option Bool) :=
  (curConn s).map Connection.isOnline

/-- Modelled from the spec: delivery of one notification to every listener,
sequential in registration order (§5). -/
def notifyAll (s : ManagerState) (payload : Option String) : List (Nat × Option String) :=
  s.listeners.map (fun h => (h, payload))

/-- Modelled from the spec: tier preference order (§4.4) — lower number is
more preferred, except that 0 (unset) is the least preferred tier. -/
def TierLt (a b : Nat) : Prop := a ≠ 0 ∧ (b = 0 ∨ a < b)

instance (a b : Nat) : Decidable (TierLt a b) := by
  unfold TierLt; infer_instance

/-- Tier `a` is at least as preferred as tier `b`. -/
def TierLe (a b : Nat) : Prop := a = b ∨ TierLt a b

instance (a b : Nat) : Decidable (TierLe a b) := by
  unfold TierLe; infer_instance

/-- Response-time preference: a measured latency beats an unknown one, and a
smaller measured latency beats a larger one. -/
def RtLt : Option Nat → Option Nat → Prop
  | some a, some b => a < b
  | some _, none => True
  | none, _ => False

instance : (x y : Option Nat) → Decidable (RtLt x y)
  | some a, some b => inferInstanceAs (Decidable (a < b))
  | some _, none => .isTrue trivial
  | none, some _ => .isFalse (fun h => h)
  | none, none => .isFalse (fun h => h)

/-- `x` is at least as fast as `y`. -/
def RtLe (x y : Option Nat) : Prop := x = y ∨ RtLt x y

instance (x y : Option Nat) : Decidable (RtLe x y) := by
  unfold RtLe; infer_instance

/-- Modelled from the spec: strict selection preference (§4.4) — `c` is
strictly preferred to `d` when its tier is better, or the tiers are equal
and its response time is lower. -/
def Better (c d : Connection) : Prop :=
  TierLt c.priority d.priority ∨
    (c.priority = d.priority ∧ RtLt c.responseTimeMs d.responseTimeMs)

instance (c d : Connection) : Decidable (Better c d) := by
  unfold Better; infer_instance

/-- Modelled from the spec: the `Selector` in automatic mode (§4.4) — scan
the registry in registration order, keep only `isOnline=true` connections,
and keep the earlier connection unless a strictly better one appears later
(so ties go to the first registered). -/
def selectBest : List Connection → Option Connection
  | [] => none
  | c :: rest =>
    match selectBest rest with
    | none => if c.isOnline = some true then some c else none
    | some b =>
      if c.isOnline = some true then
        (if Better b c then some b else some c)
      else some b

/-- Modelled from the spec: recording one probe outcome on a connection
(§4.1) — on success the snapshot becomes online with the measured latency
and authentication verdict; on failure it becomes offline with latency and
authentication unknown. -/
def applyOutcome (o : ProbeOutcome) (c : Connection) : Connection :=
  if o.online then
    { c with isOnline := some true, responseTimeMs := o.responseTimeMs,
             isAuthenticated := o.authenticated }
  else
    { c with isOnline := some false, responseTimeMs := none,
             isAuthenticated := none }

/-- Modelled from the spec: completion of one sweep that began at
`startEpoch` (§4.3, §4.4, §5).  Every connection's health is updated from
its probe outcome; the selector's candidate is committed only when
automatic mode is enabled and the pin epoch has not advanced since the
sweep started; one notification fires exactly when the identity of the
current connection or its reachability changed (§3 invariant). -/
def sweepComplete (s : ManagerState) (startEpoch : Nat) (o : String → ProbeOutcome) :
    ManagerState × List (Option String) :=
  let conns := s.connections.map (fun c => applyOutcome (o c.endpointKey) c)
  let newCur :=
    if s.autoSwitchEnabled = true ∧ s.pinEpoch = startEpoch then
      (selectBest conns).map Connection.endpointKey
    else s.current
  let s' := { s with connections := conns, current := newCur }
  (s', if newCur ≠ s.current ∨ reach s' ≠ reach s then [newCur] else [])

/-- Modelled from the spec: `start(periodMs)` of the `Poller` (§4.5) —
idempotent: when already running it replaces the period rather than
starting a second loop. -/
def startCheckingConnection (s : ManagerState) (periodMs : Nat) : ManagerState :=
  if s.pollRunning then { s with pollPeriodMs := some periodMs }
  else { s with pollRunning := true, pollPeriodMs := some periodMs,
                activeTimers := s.activeTimers + 1 }

/-- Modelled from the spec: `stop()` of the `Poller` (§4.5) — cancels the
running loop, if any. -/
def stopCheckingConnection (s : ManagerState) : ManagerState :=
  if s.pollRunning then
    { s with pollRunning := false, activeTimers := s.activeTimers - 1 }
  else s

/-- A freshly registered connection: health entirely unknown (§3
lifecycle). -/
def freshConnection (k : String) : Connection :=
  { endpointKey := k, priority := 0, responseTimeMs := none,
    isOnline := none, isAuthenticated := none }

/-- Modelled from the spec: the Manager operation surface (§6). -/
inductive MgrOp where
  | addConnection (c : Connection)
  | removeConnection (k : String)
  | setConnection (k : String)
  | checkConnections (o : String → ProbeOutcome)
  | startChecking (periodMs : Nat)
  | stopChecking
  | addListener (h : Nat)
  | removeListener (h : Nat)

/-- Modelled from the spec: one Manager operation (§4.2, §4.6).  Returns the
new state and the list of notification payloads fired, or a configuration
error (in which case the state is unchanged, §7).  `setConnection` pins the
target, incrementing the pin epoch; with strictness disabled it registers an
unknown endpoint first, with strictness enabled it fails.  A notification
fires exactly when the identity of the current connection changes (§3). -/
def stepOp (s : ManagerState) : MgrOp → Except ConfigurationError (ManagerState × List (Option String))
  | .addConnection c =>
    if hasKey s.connections c.endpointKey then .error .duplicateEndpoint
    else .ok ({ s with connections := s.connections ++ [c] }, [])
  | .removeConnection k =>
    if hasKey s.connections k then
      let conns := s.connections.filter (fun c => c.endpointKey != k)
      if s.current = some k then
        .ok ({ s with connections := conns, current := none }, [none])
      else .ok ({ s with connections := conns }, [])
    else .error .unknownEndpoint
  | .setConnection k =>
    if hasKey s.connections k then
      .ok ({ s with current := some k, pinEpoch := s.pinEpoch + 1 },
           if s.current = some k then [] else [some k])
    else if s.strict then .error .unknownEndpoint
    else
      .ok ({ s with connections := s.connections ++ [freshConnection k],
                    current := some k, pinEpoch := s.pinEpoch + 1 },
           if s.current = some k then [] else [some k])
  | .checkConnections o => .ok (sweepComplete s s.pinEpoch o)
  | .startChecking p => .ok (startCheckingConnection s p, [])
  | .stopChecking => .ok (stopCheckingConnection s, [])
  | .addListener h =>
    .ok (if s.listeners.contains h then s
         else { s with listeners := s.listeners ++ [h] }, [])
  | .removeListener h =>
    .ok ({ s with listeners := s.listeners.filter (fun x => x != h) }, [])

/-- The state after one operation; a failing operation leaves the state
unchanged (§7: configuration errors surface to the caller). -/
def nextState (s : ManagerState) (op : MgrOp) : ManagerState :=
  match stepOp s op with
  | .ok (s', _) => s'
  | .error _ => s

/-- Run a sequence of Manager operations. -/
def runOps (s : ManagerState) : List MgrOp → ManagerState
  | [] => s
  | op :: rest => runOps (nextState s op) rest

/-- Modelled from the spec: the initial Manager state (§3) — empty registry,
no current connection, epoch 0, no listeners, poller stopped. -/
def initState (strict auto : Bool) : ManagerState :=
  { connections := [], current := none, autoSwitchEnabled := auto,
    pinEpoch := 0, listeners := [], pollPeriodMs := none,
    pollRunning := false, activeTimers := 0, strict := strict }

/-- The §3 invariant: if `current` is set it references a live registry
member. -/
def InvCur (s : ManagerState) : Prop :=
  ∀ k, s.current = some k → hasKey s.connections k = true

/-- The §3 notification invariant, for one operation: a notification fires
iff the identity of the current connection changes or the reachability of
the connection that is already current changes; at most one notification
fires, and a fired notification is delivered once to every listener. -/
def NotifyOk (s : ManagerState) (op : MgrOp) : Prop :=
  match stepOp s op with
  | .ok (s', evs) =>
    ((evs ≠ []) ↔ (s'.current ≠ s.current ∨ reach s' ≠ reach s)) ∧
    evs.length ≤ 1 ∧
    (∀ e, e ∈ evs → (notifyAll s' e).length = s'.listeners.length)
  | .error _ => True

/-- Embedding of `MoneroConnectionManagerListener.onConnectionChanged`
(the default listener): an async no-op — it resolves to void, raises no
error, and leaves any surrounding state `st` untouched (stateful code is
embedded by explicit state passing). -/
def MoneroConnectionManagerListener.onConnectionChanged {σ : Type}
    (connection : Option Connection) (st : σ) : Except MoneroErr (Unit × σ) :=
  Except.ok ((), st)

/-- Embedding of the observable state of a `MoneroWalletKeys` instance: the
closed flag (initially unset) and the C++ wallet address, which `close`
deletes. -/
structure WalletKeysState where
  isClosed : Bool
  cppAddress : Option Nat
deriving Repr, DecidableEq

/-- The WASM keys module consumed by `MoneroWalletKeys`, abstracted as the
responses of its exported functions (each takes the C++ address the wallet
passes, `none` once deleted). -/
structure KeysWasmModule where
  is_view_only : Option Nat → Bool
  get_version : Option Nat → Nat × Bool
  get_seed : Option Nat → String
  get_private_view_key : Option Nat → String
  get_address : Option Nat → Nat → Nat → String

/-- Embedding of `MoneroVersion` as constructed by
`MoneroWalletKeys.getVersion`. -/
structure MoneroVersion where
  number : Nat
  isRelease : Bool
deriving Repr, DecidableEq

namespace MoneroWalletKeys

/-- Embedding of `MoneroWalletKeys.close`: closing a closed wallet has no
effect; otherwise the C++ address is deleted and the closed flag set.
(Saving is delegated outside the key state modelled here.) -/
def close (s : WalletKeysState) : WalletKeysState :=
  if s.isClosed then s else { isClosed := true, cppAddress := none }

/-- Embedding of `MoneroWalletKeys.isClosed`. -/
def isClosed (s : WalletKeysState) : Bool := s.isClosed

/-- Embedding of `MoneroWalletKeys._assertNotClosed`: raises
`MoneroError("Wallet is closed")` when the wallet is closed. -/
def _assertNotClosed (s : WalletKeysState) : Except MoneroErr Unit :=
  if s.isClosed then .error ⟨"Wallet is closed", none⟩ else .ok ()

/-- Embedding of `MoneroWalletKeys.isViewOnly`: a queued task that asserts
the wallet open and then queries the module. -/
def isViewOnly (m : KeysWasmModule) (s : WalletKeysState) : Except MoneroErr Bool :=
  match _assertNotClosed s with
  | .error e => .error e
  | .ok _ => .ok (m.is_view_only s.cppAddress)

/-- Embedding of `MoneroWalletKeys.getVersion`: a queued task that asserts
the wallet open, queries the module and parses the version. -/
def getVersion (m : KeysWasmModule) (s : WalletKeysState) : Except MoneroErr MoneroVersion :=
  match _assertNotClosed s with
  | .error e => .error e
  | .ok _ =>
    let v := m.get_version s.cppAddress
    .ok ⟨v.1, v.2⟩

/-- Embedding of `MoneroWalletKeys.getSeed`: after the closed check, a
module response with the `error: ` marker raises; an empty response becomes
`undefined` (`none`). -/
def getSeed (m : KeysWasmModule) (s : WalletKeysState) : Except MoneroErr (Option String) :=
  match _assertNotClosed s with
  | .error e => .error e
  | .ok _ =>
    let resp := m.get_seed s.cppAddress
    if resp.startsWith "error: " then .error ⟨resp.drop "error: ".length, none⟩
    else .ok (if resp = "" then none else some resp)

/-- Embedding of `MoneroWalletKeys.getPrivateViewKey`, analogous to
`getSeed`. -/
def getPrivateViewKey (m : KeysWasmModule) (s : WalletKeysState) : Except MoneroErr (Option String) :=
  match _assertNotClosed s with
  | .error e => .error e
  | .ok _ =>
    let resp := m.get_private_view_key s.cppAddress
    if resp.startsWith "error: " then .error ⟨resp.drop "error: ".length, none⟩
    else .ok (if resp = "" then none else some resp)

/-- Embedding of `MoneroWalletKeys.getAddress`: the closed assertion (made
both before and inside the queued task, collapsed here) followed by the
module query. -/
def getAddress (m : KeysWasmModule) (s : WalletKeysState)
    (accountIdx subaddressIdx : Nat) : Except MoneroErr String :=
  match _assertNotClosed s with
  | .error e => .error e
  | .ok _ => .ok (m.get_address s.cppAddress accountIdx subaddressIdx)

/-- Embedding of `MoneroWalletKeys.addListener`: unconditionally raises. -/
def addListener {α : Type} (_s : WalletKeysState) (_listener : α) : Except MoneroErr Unit :=
  .error ⟨"MoneroWalletKeys does not support adding listeners", none⟩

/-- Embedding of `MoneroWalletKeys.removeListener`: unconditionally
raises. -/
def removeListener {α : Type} (_s : WalletKeysState) (_listener : α) : Except MoneroErr Unit :=
  .error ⟨"MoneroWalletKeys does not support removing listeners", none⟩

/-- Embedding of `MoneroWalletKeys.isConnectedToDaemon`: always `false`. -/
def isConnectedToDaemon (_s : WalletKeysState) : Bool := false

end MoneroWalletKeys

/-- Embedding of `MoneroDestination` as used by `MoneroTxConfig` (its own
file is not among the sources): an optional address and an optional
amount, as built by `new MoneroDestination(address, amount)` and mutated by
`setAddress`/`setAmount`. -/
structure MoneroDestination where
  address : Option String
  amount : Option Int
deriving Repr, DecidableEq

/-- Embedding of the `MoneroTxConfig` internal state, restricted to the
fields the single-destination aliasing logic touches: top-level `address`
and `amount` and the `destinations` list. -/
structure TxConfigState where
  address : Option String
  amount : Option Int
  destinations : Option (List MoneroDestination)
deriving Repr, DecidableEq

/-- The plain-object argument of the `MoneroTxConfig` constructor,
restricted to the same fields (amounts restricted to bigint values, which
the constructor's conversion leaves unchanged). -/
structure TxConfigInput where
  address : Option String
  amount : Option Int
  destinations : Option (List MoneroDestination)
deriving Repr, DecidableEq

/-- JavaScript truthiness of an optional string: the empty string is
falsy. -/
def truthyStr : Option String → Bool
  | some s => !(s == "")
  | none => false

/-- JavaScript truthiness of an optional bigint: zero is falsy. -/
def truthyAmt : Option Int → Bool
  | some a => !(a == 0)
  | none => false

namespace MoneroTxConfig

/-- The assertion message used when destinations and a top-level
address/amount are both given. -/
def destsAndAddrMsg : String :=
  "Tx configuration may specify destinations or an address/amount but not both"

/-- Embedding of `MoneroTxConfig.setAddress`: fails on multiple
destinations, creates the single destination when absent, otherwise updates
its address. -/
def setAddress (st : TxConfigState) (addr : Option String) : Except MoneroErr TxConfigState :=
  match st.destinations with
  | some ds =>
    if ds.length > 1 then
      .error ⟨"Cannot set address because MoneroTxConfig already has multiple destinations", none⟩
    else
      match ds with
      | [] => .ok { st with destinations := some [⟨addr, none⟩] }
      | d :: rest => .ok { st with destinations := some ({ d with address := addr } :: rest) }
  | none => .ok { st with destinations := some [⟨addr, none⟩] }

/-- Embedding of `MoneroTxConfig.setAmount` (for bigint amounts, on which
the constructor's conversion is the identity): fails on multiple
destinations, creates the single destination when absent, otherwise updates
its amount. -/
def setAmount (st : TxConfigState) (amt : Option Int) : Except MoneroErr TxConfigState :=
  match st.destinations with
  | some ds =>
    if ds.length > 1 then
      .error ⟨"Cannot set amount because MoneroTxConfig already has multiple destinations", none⟩
    else
      match ds with
      | [] => .ok { st with destinations := some [⟨none, amt⟩] }
      | d :: rest => .ok { st with destinations := some ({ d with amount := amt } :: rest) }
  | none => .ok { st with destinations := some [⟨none, amt⟩] }

/-- Embedding of the `MoneroTxConfig` constructor on a plain object
(projected to the aliasing-relevant fields): a defined `address`/`amount`
together with `destinations` fails the assertion; a truthy `address` or
`amount` is aliased into a single destination and the top-level fields are
deleted; falsy values are left in place. -/
def mkTxConfig (cfg : TxConfigInput) : Except MoneroErr TxConfigState :=
  let st0 : TxConfigState := ⟨cfg.address, cfg.amount, cfg.destinations⟩
  if cfg.destinations.isSome && (cfg.address.isSome || cfg.amount.isSome) then
    .error ⟨destsAndAddrMsg, none⟩
  else if truthyStr st0.address || truthyAmt st0.amount then
    if st0.destinations.isSome then .error ⟨destsAndAddrMsg, none⟩
    else
      match setAddress st0 st0.address with
      | .error e => .error e
      | .ok st2 =>
        match setAmount st2 st0.amount with
        | .error e => .error e
        | .ok st3 => .ok { st3 with address := none, amount := none }
  else .ok st0

/-- Embedding of `MoneroTxConfig.getAddress`: requires exactly one
destination and reads its address. -/
def getAddress (st : TxConfigState) : Except MoneroErr (Option String) :=
  match st.destinations with
  | some [d] => .ok d.address
  | _ => .error ⟨"Cannot get address because MoneroTxConfig does not have exactly one destination", none⟩

/-- Embedding of `MoneroTxConfig.getAmount`: requires exactly one
destination and reads its amount. -/
def getAmount (st : TxConfigState) : Except MoneroErr (Option Int) :=
  match st.destinations with
  | some [d] => .ok d.amount
  | _ => .error ⟨"Cannot get amount because MoneroTxConfig does not have exactly one destination", none⟩

end MoneroTxConfig

/-! ### Helper lemmas about the selection order -/

lemma tier_trichotomy (a b : Nat) : TierLt a b ∨ a = b ∨ TierLt b a := by
  unfold TierLt; omega

lemma rt_trichotomy (x y : Option Nat) : RtLt x y ∨ x = y ∨ RtLt y x := by
  rcases x with _ | a <;> rcases y with _ | b <;> simp [RtLt] <;> omega

lemma Better_self_fields {c d : Connection} (hp : c.priority = d.priority)
    (hr : c.responseTimeMs = d.responseTimeMs) : ¬ Better c d := by
  unfold Better TierLt
  rw [hp, hr]
  rcases d.responseTimeMs with _ | x <;> simp [RtLt] <;> omega

lemma Better_asymm {b c : Connection} (h : Better b c) : ¬ Better c b := by
  obtain ⟨kb, pb, rb, ob, ab⟩ := b
  obtain ⟨kc, pc, rc, oc, ac⟩ := c
  unfold Better TierLt at *
  dsimp at *
  rcases rb with _ | x <;> rcases rc with _ | y <;> simp [RtLt] at h ⊢ <;> omega

lemma Better_neg_trans {a b c : Connection} (h1 : ¬ Better a b) (h2 : ¬ Better b c) :
    ¬ Better a c := by
  obtain ⟨ka, pa, ra, oa, aa⟩ := a
  obtain ⟨kb, pb, rb, ob, ab⟩ := b
  obtain ⟨kc, pc, rc, oc, ac⟩ := c
  unfold Better TierLt at *
  dsimp at *
  rcases ra with _ | x <;> rcases rb with _ | y <;> rcases rc with _ | z <;>
    simp [RtLt] at h1 h2 ⊢ <;> omega

/-! ### Helper lemmas about `selectBest` -/

lemma selectBest_none {l : List Connection} (h : selectBest l = none) :
    ∀ d ∈ l, ¬ (d.isOnline = some true) := by
  induction l with
  | nil => intro d hd; simp at hd
  | cons c rest ih =>
    intro d hd
    rcases List.mem_cons.mp hd with hd | hd
    · cases hr : selectBest rest with
      | none =>
        by_cases hc : c.isOnline = some true
        · simp [selectBest, hr, hc] at h
        · subst hd; exact hc
      | some b => simp [selectBest, hr] at h; split_ifs at h <;> simp at h
    · cases hr : selectBest rest with
      | none => exact ih hr d hd
      | some b => simp [selectBest, hr] at h; split_ifs at h <;> simp at h

lemma selectBest_isOnline : ∀ {l : List Connection} {c : Connection},
    selectBest l = some c → c.isOnline = some true := by
  intro l
  induction l with
  | nil => intro c h; simp [selectBest] at h
  | cons a rest ih =>
    intro c h
    cases hr : selectBest rest with
    | none =>
      by_cases ha : a.isOnline = some true
      · simp [selectBest, hr, ha] at h; subst h; exact ha
      · simp [selectBest, hr, ha] at h
    | some b =>
      by_cases ha : a.isOnline = some true
      · by_cases hb : Better b a
        · simp [selectBest, hr, ha, hb] at h; subst h; exact ih hr
        · simp [selectBest, hr, ha, hb] at h; subst h; exact ha
      · simp [selectBest, hr, ha] at h; subst h; exact ih hr

lemma selectBest_mem : ∀ {l : List Connection} {c : Connection},
    selectBest l = some c → c ∈ l := by
  intro l
  induction l with
  | nil => intro c h; simp [selectBest] at h
  | cons a rest ih =>
    intro c h
    cases hr : selectBest rest with
    | none =>
      by_cases ha : a.isOnline = some true
      · simp [selectBest, hr, ha] at h; subst h; exact List.mem_cons_self _ _
      · simp [selectBest, hr, ha] at h
    | some b =>
      by_cases ha : a.isOnline = some true
      · by_cases hb : Better b a
        · simp [selectBest, hr, ha, hb] at h; subst h
          exact List.mem_cons_of_mem _ (ih hr)
        · simp [selectBest, hr, ha, hb] at h; subst h; exact List.mem_cons_self _ _
      · simp [selectBest, hr, ha] at h; subst h; exact List.mem_cons_of_mem _ (ih hr)

lemma selectBest_min : ∀ {l : List Connection} {c : Connection},
    selectBest l = some c → ∀ d ∈ l, d.isOnline = some true → ¬ Better d c := by
  intro l
  induction l with
  | nil => intro c h; simp [selectBest] at h
  | cons a rest ih =>
    intro c h d hd hon
    rcases List.mem_cons.mp hd with hd | hd
    all_goals cases hr : selectBest rest with
    | none =>
      by_cases ha : a.isOnline = some true
      · simp [selectBest, hr, ha] at h
        subst h
        first
        | (subst hd; exact Better_self_fields rfl rfl)
        | exact absurd hon (selectBest_none hr d hd)
      · simp [selectBest, hr, ha] at h
    | some b =>
      by_cases ha : a.isOnline = some true
      · by_cases hb : Better b a
        · simp [selectBest, hr, ha, hb] at h
          subst h
          first
          | (subst hd; exact Better_asymm hb)
          | exact ih hr d hd hon
        · simp [selectBest, hr, ha, hb] at h
          subst h
          first
          | (subst hd; exact Better_self_fields rfl rfl)
          | exact Better_neg_trans (ih hr d hd hon) hb
      · simp [selectBest, hr, ha] at h
        subst h
        first
        | (subst hd; exact absurd hon ha)
        | exact ih hr d hd hon

lemma selectBest_stable : ∀ {l : List Connection} {c : Connection},
    selectBest l = some c →
    ∃ i, l.get? i = some c ∧
      ∀ j d, j < i → l.get? j = some d → d.isOnline = some true → Better c d := by
  intro l
  induction l with
  | nil => intro c h; simp [selectBest] at h
  | cons a rest ih =>
    intro c h
    cases hr : selectBest rest with
    | none =>
      by_cases ha : a.isOnline = some true
      · simp [selectBest, hr, ha] at h
        subst h
        exact ⟨0, rfl, fun j d hj _ _ => absurd hj (Nat.not_lt_zero j)⟩
      · simp [selectBest, hr, ha] at h
    | some b =>
      by_cases ha : a.isOnline = some true
      · by_cases hb : Better b a
        · simp [selectBest, hr, ha, hb] at h
          subst h
          obtain ⟨i, hi, hmin⟩ := ih hr
          refine ⟨i + 1, hi, fun j d hj hjd hon => ?_⟩
          cases j with
          | zero =>
            simp [List.get?] at hjd
            subst hjd; exact hb
          | succ jp => exact hmin jp d (Nat.lt_of_succ_lt_succ hj) hjd hon
        · simp [selectBest, hr, ha, hb] at h
          subst h
          exact ⟨0, rfl, fun j d hj _ _ => absurd hj (Nat.not_lt_zero j)⟩
      · simp [selectBest, hr, ha] at h
        subst h
        obtain ⟨i, hi, hmin⟩ := ih hr
        refine ⟨i + 1, hi, fun j d hj hjd hon => ?_⟩
        cases j with
        | zero =>
          simp [List.get?] at hjd
          subst hjd; exact absurd hon ha
        | succ jp => exact hmin jp d (Nat.lt_of_succ_lt_succ hj) hjd hon

/-! ### Helper lemmas about the registry -/

lemma applyOutcome_endpointKey (o : ProbeOutcome) (c : Connection) :
    (applyOutcome o c).endpointKey = c.endpointKey := by
  unfold applyOutcome; split <;> rfl

lemma hasKey_append (l l' : List Connection) (k : String) :
    hasKey (l ++ l') k = (hasKey l k || hasKey l' k) := by
  simp [hasKey]

lemma hasKey_map_applyOutcome (o : String → ProbeOutcome) (l : List Connection) (k : String) :
    hasKey (l.map (fun c => applyOutcome (o c.endpointKey) c)) k = hasKey l k := by
  simp only [hasKey, List.any_map]
  congr 1
  funext c
  simp [Function.comp, applyOutcome_endpointKey]

lemma hasKey_of_mem {l : List Connection} {c : Connection} (hc : c ∈ l) :
    hasKey l c.endpointKey = true := by
  simp [hasKey, List.any_eq_true]
  exact ⟨c, hc, rfl⟩

lemma hasKey_cons (c : Connection) (l : List Connection) (k : String) :
    hasKey (c :: l) k = ((c.endpointKey == k) || hasKey l k) := by
  simp [hasKey]

lemma findConn_append {l : List Connection} (l' : List Connection) {k : String}
    (h : hasKey l k = true) : findConn (l ++ l') k = findConn l k := by
  induction l with
  | nil => simp [hasKey] at h
  | cons c rest ih =>
    rw [List.cons_append]
    by_cases hc : (c.endpointKey == k) = true
    · simp [findConn, List.find?, hc]
    · rw [hasKey_cons] at h
      simp only [hc, Bool.false_or] at h
      simp only [findConn, List.find?] at ih ⊢
      simp only [hc]
      exact ih h

lemma findConn_filter_ne {k k' : String} (hne : k' ≠ k) (l : List Connection) :
    findConn (l.filter (fun c => c.endpointKey != k)) k' = findConn l k' := by
  induction l with
  | nil => rfl
  | cons c rest ih =>
    by_cases hk : (c.endpointKey == k) = true
    · have hkv : c.endpointKey = k := by simpa using hk
      have hk' : (c.endpointKey == k') = false := by
        simp [hkv]
        exact fun he => hne he.symm
      have hf : (c.endpointKey != k) = false := by simp [hkv]
      simp only [List.filter_cons, hf, Bool.false_eq_true, if_false]
      rw [ih]
      simp only [findConn, List.find?, hk']
    · have hf : (c.endpointKey != k) = true := by simp [bne]; simpa using hk
      simp only [List.filter_cons, hf, if_true]
      simp only [findConn, List.find?] at ih ⊢
      cases hk' : (c.endpointKey == k') with
      | true => rfl
      | false => exact ih

lemma hasKey_filter_ne {k k' : String} (hne : k' ≠ k) (l : List Connection) :
    hasKey (l.filter (fun c => c.endpointKey != k)) k' = hasKey l k' := by
  induction l with
  | nil => rfl
  | cons c rest ih =>
    by_cases hk : (c.endpointKey == k) = true
    · have hkv : c.endpointKey = k := by simpa using hk
      have hk' : (c.endpointKey == k') = false := by
        simp [hkv]
        exact fun he => hne he.symm
      have hf : (c.endpointKey != k) = false := by simp [hkv]
      simp only [List.filter_cons, hf, Bool.false_eq_true, if_false]
      rw [ih, hasKey_cons, hk', Bool.false_or]
    · have hf : (c.endpointKey != k) = true := by simp [bne]; simpa using hk
      simp only [List.filter_cons, hf, if_true]
      rw [hasKey_cons, hasKey_cons, ih]

/-! ### Invariant preservation -/

lemma invCur_next {s : ManagerState} (h : InvCur s) (op : MgrOp) : InvCur (nextState s op) := by
  cases op with
  | addConnection c =>
    simp only [nextState, stepOp]
    by_cases hk : hasKey s.connections c.endpointKey = true
    · rw [if_pos hk]; exact h
    · rw [if_neg hk]
      intro k hkc
      have hkc' : s.current = some k := hkc
      show hasKey (s.connections ++ [c]) k = true
      rw [hasKey_append, h k hkc']
      rfl
  | removeConnection k =>
    simp only [nextState, stepOp]
    by_cases hk : hasKey s.connections k = true
    · rw [if_pos hk]
      by_cases hcur : s.current = some k
      · rw [if_pos hcur]
        intro k' hk'
        simp at hk'
      · rw [if_neg hcur]
        intro k' hk'
        have hk'' : s.current = some k' := hk'
        have hne : k' ≠ k := fun he => hcur (he ▸ hk'')
        show hasKey (List.filter (fun c => c.endpointKey != k) s.connections) k' = true
        rw [hasKey_filter_ne hne]
        exact h k' hk''
    · rw [if_neg hk]; exact h
  | setConnection k =>
    simp only [nextState, stepOp]
    by_cases hk : hasKey s.connections k = true
    · rw [if_pos hk]
      intro k' hk'
      have hk'' : some k = some k' := hk'
      obtain rfl : k = k' := by simpa using hk''
      exact hk
    · rw [if_neg hk]
      by_cases hs : s.strict = true
      · rw [if_pos hs]; exact h
      · rw [if_neg hs]
        intro k' hk'
        have hk'' : some k = some k' := hk'
        obtain rfl : k = k' := by simpa using hk''
        show hasKey (s.connections ++ [freshConnection k]) k = true
        rw [hasKey_append]
        have hfr : hasKey [freshConnection k] k = true := by
          simp [hasKey, freshConnection]
        rw [hfr, Bool.or_true]
  | checkConnections o =>
    simp only [nextState, stepOp, sweepComplete]
    by_cases hauto : s.autoSwitchEnabled = true
    · rw [if_pos (And.intro hauto trivial)]
      cases hsel : selectBest (s.connections.map (fun c => applyOutcome (o c.endpointKey) c)) with
      | none => intro k hk; simp at hk
      | some c =>
        intro k hk
        have hk' : some c.endpointKey = some k := hk
        obtain rfl : c.endpointKey = k := by simpa using hk'
        show hasKey (s.connections.map (fun c => applyOutcome (o c.endpointKey) c)) c.endpointKey = true
        exact hasKey_of_mem (selectBest_mem hsel)
    · rw [if_neg (fun hc => hauto hc.1)]
      intro k hk
      have hk' : s.current = some k := hk
      show hasKey (s.connections.map (fun c => applyOutcome (o c.endpointKey) c)) k = true
      rw [hasKey_map_applyOutcome]
      exact h k hk'
  | startChecking p =>
    simp only [nextState, stepOp, startCheckingConnection]
    split <;> (intro k hk; exact h k hk)
  | stopChecking =>
    simp only [nextState, stepOp, stopCheckingConnection]
    split <;> (intro k hk; exact h k hk)
  | addListener hl =>
    simp only [nextState, stepOp]
    split <;> (intro k hk; exact h k hk)
  | removeListener hl =>
    simp only [nextState, stepOp]
    intro k hk; exact h k hk

lemma invCur_runOps : ∀ (ops : List MgrOp) (s : ManagerState), InvCur s → InvCur (runOps s ops) := by
  intro ops
  induction ops with
  | nil => intro s h; exact h
  | cons op rest ih => intro s h; exact ih _ (invCur_next h op)

lemma invCur_initState (strict auto : Bool) : InvCur (initState strict auto) := by
  intro k hk
  simp [initState] at hk

/-! ### Notification discipline -/

lemma notifyOk_sweep (s : ManagerState) (E : Nat) (o : String → ProbeOutcome) :
    (((sweepComplete s E o).2 ≠ []) ↔
      ((sweepComplete s E o).1.current ≠ s.current ∨ reach (sweepComplete s E o).1 ≠ reach s)) ∧
    (sweepComplete s E o).2.length ≤ 1 ∧
    (∀ e, e ∈ (sweepComplete s E o).2 →
      (notifyAll (sweepComplete s E o).1 e).length = (sweepComplete s E o).1.listeners.length) := by
  unfold sweepComplete
  dsimp only
  split_ifs with hcm hnt hnt <;>
  first
  | exact ⟨⟨fun _ => hnt, fun _ => by simp⟩, by simp, fun e he => by simp [notifyAll]⟩
  | exact ⟨⟨fun hne => absurd rfl hne, fun hor => absurd hor hnt⟩, by simp, fun e he => by simp at he⟩

lemma reach_congr {s s' : ManagerState} (h1 : s'.current = s.current)
    (h2 : s'.connections = s.connections) : reach s' = reach s := by
  unfold reach curConn
  rw [h1, h2]

lemma notifyOk_of_invCur {s : ManagerState} (h : InvCur s) (op : MgrOp) : NotifyOk s op := by
  cases op with
  | addConnection c =>
    simp only [NotifyOk, stepOp]
    by_cases hk : hasKey s.connections c.endpointKey = true
    · rw [if_pos hk]; trivial
    · rw [if_neg hk]
      have hre : reach { s with connections := s.connections ++ [c] } = reach s := by
        unfold reach curConn
        cases hcur : s.current with
        | none => rfl
        | some k =>
          dsimp only
          rw [findConn_append [c] (h k hcur)]
      refine ⟨?_, by simp, by simp⟩
      constructor
      · intro hne; exact absurd rfl hne
      · intro hor
        rcases hor with hor | hor
        · exact absurd rfl hor
        · exact absurd hre hor
  | removeConnection k =>
    simp only [NotifyOk, stepOp]
    by_cases hk : hasKey s.connections k = true
    · rw [if_pos hk]
      by_cases hcur : s.current = some k
      · rw [if_pos hcur]
        refine ⟨?_, by simp, ?_⟩
        · constructor
          · intro _
            left
            rw [hcur]
            simp
          · intro _; simp
        · intro e he
          simp [notifyAll]
      · rw [if_neg hcur]
        have hre : reach { s with connections := List.filter (fun c => c.endpointKey != k) s.connections } = reach s := by
          unfold reach curConn
          cases hcur2 : s.current with
          | none => rfl
          | some k' =>
            dsimp only
            have hne : k' ≠ k := fun he => hcur (he ▸ hcur2)
            rw [findConn_filter_ne hne]
        refine ⟨?_, by simp, by simp⟩
        constructor
        · intro hne; exact absurd rfl hne
        · intro hor
          rcases hor with hor | hor
          · exact absurd rfl hor
          · exact absurd hre hor
    · rw [if_neg hk]; trivial
  | setConnection k =>
    simp only [NotifyOk, stepOp]
    by_cases hk : hasKey s.connections k = true
    · rw [if_pos hk]
      by_cases hcur : s.current = some k
      · rw [if_pos hcur]
        have hre : reach { s with current := some k, pinEpoch := s.pinEpoch + 1 } = reach s :=
          reach_congr hcur.symm rfl
        refine ⟨?_, by simp, by simp⟩
        constructor
        · intro hne; exact absurd rfl hne
        · intro hor
          rcases hor with hor | hor
          · exact absurd hcur.symm hor
          · exact absurd hre hor
      · rw [if_neg hcur]
        refine ⟨?_, by simp, ?_⟩
        · constructor
          · intro _
            left
            exact fun he => hcur he.symm
          · intro _; simp
        · intro e he
          simp [notifyAll]
    · rw [if_neg hk]
      by_cases hs : s.strict = true
      · rw [if_pos hs]; trivial
      · rw [if_neg hs]
        have hcur : ¬ s.current = some k := fun he => hk (h k he)
        rw [if_neg hcur]
        refine ⟨?_, by simp, ?_⟩
        · constructor
          · intro _
            left
            exact fun he => hcur he.symm
          · intro _; simp
        · intro e he
          simp [notifyAll]
  | checkConnections o =>
    simp only [NotifyOk, stepOp]
    exact notifyOk_sweep s s.pinEpoch o
  | startChecking p =>
    simp only [NotifyOk, stepOp]
    have h1 : (startCheckingConnection s p).current = s.current := by
      unfold startCheckingConnection; split <;> rfl
    have h2 : reach (startCheckingConnection s p) = reach s :=
      reach_congr h1 (by unfold startCheckingConnection; split <;> rfl)
    refine ⟨?_, by simp, by simp⟩
    constructor
    · intro hne; exact absurd rfl hne
    · intro hor
      rcases hor with hor | hor
      · exact absurd h1 hor
      · exact absurd h2 hor
  | stopChecking =>
    simp only [NotifyOk, stepOp]
    have h1 : (stopCheckingConnection s).current = s.current := by
      unfold stopCheckingConnection; split <;> rfl
    have h2 : reach (stopCheckingConnection s) = reach s :=
      reach_congr h1 (by unfold stopCheckingConnection; split <;> rfl)
    refine ⟨?_, by simp, by simp⟩
    constructor
    · intro hne; exact absurd rfl hne
    · intro hor
      rcases hor with hor | hor
      · exact absurd h1 hor
      · exact absurd h2 hor
  | addListener hl =>
    simp only [NotifyOk, stepOp]
    have h1 : (if s.listeners.contains hl then s
               else { s with listeners := s.listeners ++ [hl] }).current = s.current := by
      split <;> rfl
    have h2 : reach (if s.listeners.contains hl then s
               else { s with listeners := s.listeners ++ [hl] }) = reach s :=
      reach_congr h1 (by split <;> rfl)
    refine ⟨?_, by simp, by simp⟩
    constructor
    · intro hne; exact absurd rfl hne
    · intro hor
      rcases hor with hor | hor
      · exact absurd h1 hor
      · exact absurd h2 hor
  | removeListener hl =>
    simp only [NotifyOk, stepOp]
    refine ⟨?_, by simp, by simp⟩
    constructor
    · intro hne; exact absurd rfl hne
    · intro hor
      rcases hor with hor | hor
      · exact absurd rfl hor
      · exact absurd rfl hor

/-! ### Claim theorems -/

/-- C1: for every registry with automatic mode enabled and at least one
connection whose probe reports online, after `checkConnections` completes
the current connection is online and has the lowest `responseTimeMs` among
the online connections in the best (lowest-numbered, with 0/unset last)
non-empty priority tier, ties broken in favor of the earliest-registered
connection. -/
theorem checkConnections_selects_best (s : ManagerState) (o : String → ProbeOutcome)
    (hauto : s.autoSwitchEnabled = true)
    (honline : ∃ c ∈ s.connections, (o c.endpointKey).online = true) :
    ∃ s' evs i c, stepOp s (.checkConnections o) = .ok (s', evs) ∧
      s'.current = some c.endpointKey ∧
      s'.connections.get? i = some c ∧
      c.isOnline = some true ∧
      (∀ j d, s'.connections.get? j = some d → d.isOnline = some true →
        TierLe c.priority d.priority ∧
        (d.priority = c.priority → RtLe c.responseTimeMs d.responseTimeMs) ∧
        (d.priority = c.priority → d.responseTimeMs = c.responseTimeMs → i ≤ j)) := by
  obtain ⟨c0, hc0mem, hc0on⟩ := honline
  have hmem' : applyOutcome (o c0.endpointKey) c0 ∈
      s.connections.map (fun c => applyOutcome (o c.endpointKey) c) :=
    List.mem_map_of_mem _ hc0mem
  have hon' : (applyOutcome (o c0.endpointKey) c0).isOnline = some true := by
    unfold applyOutcome
    rw [if_pos hc0on]
  cases hsel : selectBest (s.connections.map (fun c => applyOutcome (o c.endpointKey) c)) with
  | none => exact absurd hon' (selectBest_none hsel _ hmem')
  | some c =>
    have hcur : (sweepComplete s s.pinEpoch o).1.current = some c.endpointKey := by
      unfold sweepComplete
      dsimp only
      rw [if_pos (And.intro hauto rfl), hsel]
      rfl
    have hconns : (sweepComplete s s.pinEpoch o).1.connections =
        s.connections.map (fun c => applyOutcome (o c.endpointKey) c) := rfl
    obtain ⟨i, hi, hstable⟩ := selectBest_stable hsel
    refine ⟨(sweepComplete s s.pinEpoch o).1, (sweepComplete s s.pinEpoch o).2, i, c,
      rfl, hcur, by rw [hconns]; exact hi, selectBest_isOnline hsel, ?_⟩
    intro j d hjd hond
    rw [hconns] at hjd
    have hnb : ¬ Better d c :=
      selectBest_min hsel d (List.get?_mem hjd) hond
    refine ⟨?_, ?_, ?_⟩
    · rcases tier_trichotomy c.priority d.priority with ht | ht | ht
      · exact Or.inr ht
      · exact Or.inl ht
      · exact absurd (Or.inl ht) hnb
    · intro hp
      rcases rt_trichotomy c.responseTimeMs d.responseTimeMs with hr | hr | hr
      · exact Or.inr hr
      · exact Or.inl hr
      · exact absurd (Or.inr ⟨hp, hr⟩) hnb
    · intro hp hrt
      by_contra hij
      have hji : j < i := Nat.lt_of_not_le (fun hle => hij (by
        rcases Nat.lt_or_ge i j with h1 | h1
        · exact Nat.le_of_lt h1
        · exact hle))
      exact absurd (hstable j d hji hjd hond) (Better_self_fields hp.symm hrt.symm)

/-- A two-connection registry used to witness the selection theorem. -/
def connA : Connection :=
  { endpointKey := "a", priority := 1, responseTimeMs := none,
    isOnline := none, isAuthenticated := none }

/-- Second witness connection. -/
def connB : Connection :=
  { endpointKey := "b", priority := 1, responseTimeMs := none,
    isOnline := none, isAuthenticated := none }

/-- Witness manager state: two registered connections, automatic mode. -/
def wmState : ManagerState :=
  { connections := [connA, connB], current := none, autoSwitchEnabled := true,
    pinEpoch := 0, listeners := [7], pollPeriodMs := none,
    pollRunning := false, activeTimers := 0, strict := false }

/-- Witness probe outcomes: both online, `b` faster. -/
def wOutcomes : String → ProbeOutcome := fun k =>
  if k == "a" then ⟨true, some 50, some true⟩ else ⟨true, some 30, some true⟩

theorem checkConnections_selects_best_witness :
    wmState.autoSwitchEnabled = true ∧
    (∃ c ∈ wmState.connections, (wOutcomes c.endpointKey).online = true) ∧
    (∃ s' evs i c, stepOp wmState (.checkConnections wOutcomes) = .ok (s', evs) ∧
      s'.current = some c.endpointKey ∧
      s'.connections.get? i = some c ∧
      c.isOnline = some true ∧
      (∀ j d, s'.connections.get? j = some d → d.isOnline = some true →
        TierLe c.priority d.priority ∧
        (d.priority = c.priority → RtLe c.responseTimeMs d.responseTimeMs) ∧
        (d.priority = c.priority → d.responseTimeMs = c.responseTimeMs → i ≤ j))) :=
  ⟨rfl, by decide, checkConnections_selects_best wmState wOutcomes rfl (by decide)⟩

/-- C2: over every sequence of manager operations, a listener notification
fires iff the identity of the current connection changes or the
reachability of the connection that is already current changes; status
changes of non-current connections are silent, and each observable
transition produces at most one notification, delivered once to every
listener. -/
theorem notification_iff_change (strict auto : Bool) (ops : List MgrOp) (op : MgrOp) :
    NotifyOk (runOps (initState strict auto) ops) op :=
  notifyOk_of_invCur (invCur_runOps ops _ (invCur_initState strict auto)) op

/-- C3: in every reachable manager state, a set `current` references a live
registry member, and removing the current connection clears `current` and
fires exactly one notification carrying "no connection" (`none`). -/
theorem current_live_and_remove_clears (strict auto : Bool) (ops : List MgrOp) (k : String)
    (hcur : (runOps (initState strict auto) ops).current = some k) :
    hasKey (runOps (initState strict auto) ops).connections k = true ∧
    ∃ s', stepOp (runOps (initState strict auto) ops) (.removeConnection k) = .ok (s', [none]) ∧
      s'.current = none := by
  have hinv := invCur_runOps ops _ (invCur_initState strict auto)
  have hk := hinv k hcur
  refine ⟨hk, { runOps (initState strict auto) ops with
      connections := (runOps (initState strict auto) ops).connections.filter
        (fun c => c.endpointKey != k),
      current := none }, ?_, rfl⟩
  simp only [stepOp]
  rw [if_pos hk, if_pos hcur]

theorem current_live_and_remove_clears_witness :
    hasKey (runOps (initState false true)
      [MgrOp.addConnection connA, MgrOp.setConnection "a"]).connections "a" = true ∧
    ∃ s', stepOp (runOps (initState false true)
        [MgrOp.addConnection connA, MgrOp.setConnection "a"]) (.removeConnection "a") =
      .ok (s', [none]) ∧ s'.current = none :=
  current_live_and_remove_clears false true
    [MgrOp.addConnection connA, MgrOp.setConnection "a"] "a" rfl

/-- C4: a sweep that began at epoch `E` and completes after a
`setConnection` pin advanced the epoch discards its automatic-selection
result: the pinned current connection is not overwritten, and every pin
increments the epoch. -/
theorem stale_sweep_discarded (s0 : ManagerState) (k : String) (s1 : ManagerState)
    (evs : List (Option String)) (o : String → ProbeOutcome)
    (hpin : stepOp s0 (.setConnection k) = .ok (s1, evs)) :
    s1.pinEpoch = s0.pinEpoch + 1 ∧
    (sweepComplete s1 s0.pinEpoch o).1.current = s1.current := by
  have key : ∀ s1' : ManagerState, s1'.pinEpoch = s0.pinEpoch + 1 →
      (sweepComplete s1' s0.pinEpoch o).1.current = s1'.current := by
    intro s1' hep
    have hne : ¬ (s1'.autoSwitchEnabled = true ∧ s1'.pinEpoch = s0.pinEpoch) := by
      intro hc
      rw [hep] at hc
      exact Nat.succ_ne_self _ hc.2
    unfold sweepComplete
    dsimp only
    rw [if_neg hne]
  simp only [stepOp] at hpin
  by_cases hk : hasKey s0.connections k = true
  · rw [if_pos hk] at hpin
    simp only [Except.ok.injEq, Prod.mk.injEq] at hpin
    obtain ⟨ha, hb⟩ := hpin
    subst ha
    exact ⟨rfl, key _ rfl⟩
  · rw [if_neg hk] at hpin
    by_cases hs : s0.strict = true
    · rw [if_pos hs] at hpin
      exact absurd hpin (by simp)
    · rw [if_neg hs] at hpin
      simp only [Except.ok.injEq, Prod.mk.injEq] at hpin
      obtain ⟨ha, hb⟩ := hpin
      subst ha
      exact ⟨rfl, key _ rfl⟩

/-- Witness manager state for the stale-sweep theorem. -/
def wmState4 : ManagerState :=
  { connections := [connA], current := none, autoSwitchEnabled := true,
    pinEpoch := 0, listeners := [], pollPeriodMs := none,
    pollRunning := false, activeTimers := 0, strict := false }

theorem stale_sweep_discarded_witness :
    ({ wmState4 with current := some "a", pinEpoch := 1 } : ManagerState).pinEpoch =
      wmState4.pinEpoch + 1 ∧
    (sweepComplete { wmState4 with current := some "a", pinEpoch := 1 }
        wmState4.pinEpoch wOutcomes).1.current =
      ({ wmState4 with current := some "a", pinEpoch := 1 } : ManagerState).current :=
  stale_sweep_discarded wmState4 "a" _ [some "a"] wOutcomes rfl

/-- C5: in strict mode, `setConnection` to an endpoint key not in the
registry fails with `ConfigurationError.unknownEndpoint` and leaves the
whole state — in particular the current connection — unchanged. -/
theorem strict_setConnection_unknown_fails (s : ManagerState) (k : String)
    (hs : s.strict = true) (hk : hasKey s.connections k = false) :
    stepOp s (.setConnection k) = .error .unknownEndpoint ∧
    runOps s [.setConnection k] = s := by
  have hk' : ¬ hasKey s.connections k = true := by rw [hk]; simp
  constructor
  · simp only [stepOp]
    rw [if_neg hk', if_pos hs]
  · simp only [runOps, nextState, stepOp]
    rw [if_neg hk', if_pos hs]

/-- Witness manager state for the strict-mode theorem. -/
def wmState5 : ManagerState :=
  { connections := [connA], current := some "a", autoSwitchEnabled := true,
    pinEpoch := 3, listeners := [], pollPeriodMs := none,
    pollRunning := false, activeTimers := 0, strict := true }

theorem strict_setConnection_unknown_fails_witness :
    stepOp wmState5 (.setConnection "x") = .error .unknownEndpoint ∧
    runOps wmState5 [.setConnection "x"] = wmState5 :=
  strict_setConnection_unknown_fails wmState5 "x" rfl rfl

/-- C6: `startCheckingConnection` is idempotent up to the period — starting
with `p1` and then `p2` is the same as starting once with `p2`; from a
stopped state with no timers the pair of calls leaves exactly one active
polling timer, running with the latest period `p2`. -/
theorem startCheckingConnection_idempotent (s : ManagerState) (p1 p2 : Nat)
    (h0 : s.pollRunning = false) (h1 : s.activeTimers = 0) :
    startCheckingConnection (startCheckingConnection s p1) p2 =
      startCheckingConnection s p2 ∧
    (startCheckingConnection (startCheckingConnection s p1) p2).pollPeriodMs = some p2 ∧
    (startCheckingConnection (startCheckingConnection s p1) p2).activeTimers = 1 ∧
    (startCheckingConnection (startCheckingConnection s p1) p2).pollRunning = true := by
  refine ⟨?_, ?_, ?_, ?_⟩ <;> simp [startCheckingConnection, h0, h1]

theorem startCheckingConnection_idempotent_witness :
    startCheckingConnection (startCheckingConnection wmState 100) 200 =
      startCheckingConnection wmState 200 ∧
    (startCheckingConnection (startCheckingConnection wmState 100) 200).pollPeriodMs = some 200 ∧
    (startCheckingConnection (startCheckingConnection wmState 100) 200).activeTimers = 1 ∧
    (startCheckingConnection (startCheckingConnection wmState 100) 200).pollRunning = true :=
  startCheckingConnection_idempotent wmState 100 200 rfl rfl

/-- C7: the default listener's `onConnectionChanged` resolves to void for
every argument — no error is raised and any surrounding state is left
untouched. -/
theorem onConnectionChanged_noop {σ : Type} (c : Option Connection) (st : σ) :
    MoneroConnectionManagerListener.onConnectionChanged c st = Except.ok ((), st) := rfl

/-- C8: `MoneroWalletKeys.close` is idempotent; after it completes
`isClosed` returns true and every queued accessor (`isViewOnly`,
`getVersion`, `getSeed`, `getPrivateViewKey`, `getAddress`) raises
`MoneroError("Wallet is closed")` instead of returning a value. -/
theorem walletKeys_close_idempotent_accessors_fail (s : WalletKeysState)
    (m : KeysWasmModule) (i j : Nat) :
    MoneroWalletKeys.close (MoneroWalletKeys.close s) = MoneroWalletKeys.close s ∧
    MoneroWalletKeys.isClosed (MoneroWalletKeys.close s) = true ∧
    MoneroWalletKeys.isViewOnly m (MoneroWalletKeys.close s) =
      .error ⟨"Wallet is closed", none⟩ ∧
    MoneroWalletKeys.getVersion m (MoneroWalletKeys.close s) =
      .error ⟨"Wallet is closed", none⟩ ∧
    MoneroWalletKeys.getSeed m (MoneroWalletKeys.close s) =
      .error ⟨"Wallet is closed", none⟩ ∧
    MoneroWalletKeys.getPrivateViewKey m (MoneroWalletKeys.close s) =
      .error ⟨"Wallet is closed", none⟩ ∧
    MoneroWalletKeys.getAddress m (MoneroWalletKeys.close s) i j =
      .error ⟨"Wallet is closed", none⟩ := by
  have hf : (MoneroWalletKeys.close s).isClosed = true := by
    unfold MoneroWalletKeys.close
    split
    · assumption
    · rfl
  have hassert : MoneroWalletKeys._assertNotClosed (MoneroWalletKeys.close s) =
      .error ⟨"Wallet is closed", none⟩ := by
    unfold MoneroWalletKeys._assertNotClosed
    rw [if_pos hf]
  have hidem : MoneroWalletKeys.close (MoneroWalletKeys.close s) =
      MoneroWalletKeys.close s := by
    conv_lhs => rw [MoneroWalletKeys.close]
    rw [if_pos hf]
  refine ⟨hidem, hf, ?_, ?_, ?_, ?_, ?_⟩ <;>
    simp only [MoneroWalletKeys.isViewOnly, MoneroWalletKeys.getVersion,
      MoneroWalletKeys.getSeed, MoneroWalletKeys.getPrivateViewKey,
      MoneroWalletKeys.getAddress, hassert]

/-- C9 counterexample: a plain object that specifies only the (falsy) empty
string as address constructs successfully, yet the resulting config keeps
the top-level `address` field and holds no destination at all —
contradicting the claim that any object specifying only address/amount
yields exactly one destination and cleared top-level fields. -/
theorem mkTxConfig_empty_address_counterexample :
    MoneroTxConfig.mkTxConfig ⟨some "", none, none⟩ =
      Except.ok ⟨some "", none, none⟩ ∧
    (TxConfigState.mk (some "") none none).address ≠ none ∧
    (TxConfigState.mk (some "") none none).destinations = none :=
  ⟨rfl, by simp, rfl⟩

/-- C9 (amended): specifying `destinations` together with a defined
top-level `address` or `amount` fails construction; specifying only a
truthy address and/or amount (non-empty string, non-zero bigint — JS
truthiness) yields exactly one destination carrying them, with the
top-level fields deleted, and `getAddress`/`getAmount` read from that
destination.  Falsy values (empty string, zero) are left in place and
produce no destination. -/
theorem mkTxConfig_amended (cfg : TxConfigInput) :
    ((cfg.destinations.isSome && (cfg.address.isSome || cfg.amount.isSome)) = true →
      MoneroTxConfig.mkTxConfig cfg = .error ⟨MoneroTxConfig.destsAndAddrMsg, none⟩) ∧
    (cfg.destinations = none → (truthyStr cfg.address || truthyAmt cfg.amount) = true →
      MoneroTxConfig.mkTxConfig cfg = .ok ⟨none, none, some [⟨cfg.address, cfg.amount⟩]⟩ ∧
      MoneroTxConfig.getAddress ⟨none, none, some [⟨cfg.address, cfg.amount⟩]⟩ =
        .ok cfg.address ∧
      MoneroTxConfig.getAmount ⟨none, none, some [⟨cfg.address, cfg.amount⟩]⟩ =
        .ok cfg.amount) := by
  constructor
  · intro h
    unfold MoneroTxConfig.mkTxConfig
    rw [if_pos h]
  · intro hd ht
    obtain ⟨addr, amt, dests⟩ := cfg
    dsimp at hd ht ⊢
    subst hd
    refine ⟨?_, rfl, rfl⟩
    unfold MoneroTxConfig.mkTxConfig
    dsimp only
    rw [if_neg (by simp), if_pos ht]
    rfl

theorem mkTxConfig_amended_witness :
    MoneroTxConfig.mkTxConfig ⟨some "addr", some 5, none⟩ =
      .ok ⟨none, none, some [⟨some "addr", some 5⟩]⟩ ∧
    MoneroTxConfig.getAddress ⟨none, none, some [⟨some "addr", some 5⟩]⟩ =
      .ok (some "addr") ∧
    MoneroTxConfig.getAmount ⟨none, none, some [⟨some "addr", some 5⟩]⟩ =
      .ok (some 5) :=
  (mkTxConfig_amended ⟨some "addr", some 5, none⟩).2 rfl rfl

/-- C10: the keys-only wallet rejects listener registration in both
directions with a `MoneroError`, and `isConnectedToDaemon` always returns
false. -/
theorem walletKeys_listeners_unsupported {α : Type} (s : WalletKeysState) (l : α) :
    MoneroWalletKeys.addListener s l =
      .error ⟨"MoneroWalletKeys does not support adding listeners", none⟩ ∧
    MoneroWalletKeys.removeListener s l =
      .error ⟨"MoneroWalletKeys does not support removing listeners", none⟩ ∧
    MoneroWalletKeys.isConnectedToDaemon s = false :=
  ⟨rfl, rfl, rfl⟩
